import Mathlib

/-!
Verification development for the pv-site-api Forecast & Telemetry Gateway.

The repository snapshot contains only packaging, infrastructure and example
notebooks; the `pv_site_api` package itself is absent. All core operations
below are therefore modelled from the specification document (sections 3-4,
6-8), faithful to its words, and the claims are settled against these models.

Timestamps are modelled as natural numbers (UTC instants in a discrete
clock); generation values in kW are modelled as rationals. The capacity
model is an external pure collaborator and is taken as a function parameter.
-/

/-- Modelled from the spec: section 3, a registered PV installation. Field
`owner` records the caller identity holding the access grant for the site
(the per-request resolved site-set of a caller is the set of its owned
sites). -/
structure Site where
  siteId : Nat
  owner : Nat
  clientSiteId : Nat
  clientSiteName : String
  orientation : ℚ
  tilt : ℚ
  latitude : ℚ
  longitude : ℚ
  inverterCapacityKw : ℚ
  moduleCapacityKw : ℚ
deriving DecidableEq, Repr

/-- Modelled from the spec: a candidate Site record submitted to Register
(a Site minus its assigned id and owner). -/
structure SiteCandidate where
  clientSiteId : Nat
  clientSiteName : String
  orientation : ℚ
  tilt : ℚ
  latitude : ℚ
  longitude : ℚ
  inverterCapacityKw : ℚ
  moduleCapacityKw : ℚ
deriving DecidableEq, Repr

/-- Modelled from the spec: one forecast computation run for a site, with a
creation timestamp and a completeness flag. -/
structure ForecastRun where
  runId : Nat
  siteId : Nat
  createdUtc : Nat
  complete : Bool
deriving DecidableEq, Repr

/-- Modelled from the spec: one expected-generation value belonging to a
forecast run. -/
structure ForecastValue where
  runId : Nat
  targetUtc : Nat
  expectedGenerationKw : ℚ
deriving DecidableEq, Repr

/-- Modelled from the spec: one stored actual-generation reading of a site. -/
structure PVActualValue where
  siteId : Nat
  timestampUtc : Nat
  generationKw : ℚ
deriving DecidableEq, Repr

/-- Modelled from the spec: one submitted reading of a SubmitActual batch.
A timestamp that fails to parse as a valid UTC instant is `none`. -/
structure RawReading where
  timestampUtc : Option Nat
  generationKw : ℚ
deriving DecidableEq, Repr

/-- Modelled from the spec: the state held by the persistence collaborator,
plus the id counter used to assign fresh (monotonically increasing) ids. -/
structure Store where
  sites : List Site
  nextId : Nat
  runs : List ForecastRun
  forecastValues : List ForecastValue
  actuals : List PVActualValue
deriving DecidableEq, Repr

/-- Modelled from the spec: the error taxonomy of section 7. Forbidden is
intentionally conflated with notFound for site access (section 4.2). -/
inductive ApiError where
  | unauthorized
  | notFound
  | invalidArgument
  | timeout
  | unavailable
deriving DecidableEq, Repr

/-- Modelled from the spec: the body of a site-listing response (the
`site_list` field of GET /sites, as exercised by the example notebook). -/
structure SiteListResponse where
  site_list : List Site
deriving DecidableEq, Repr

/- ### Site Registry (spec section 4.2) -/

/-- Modelled from the spec: the sites in the resolved site-set of a caller
(the sites the caller owns a grant for). -/
def ownedSites (store : Store) (caller : Nat) : List Site :=
  store.sites.filter (fun s => s.owner == caller)

/-- Modelled from the spec: the ids in the resolved site-set of a caller. -/
def ownedSiteIds (store : Store) (caller : Nat) : List Nat :=
  (ownedSites store caller).map Site.siteId

/-- Modelled from the spec: look a site up by id inside the resolved
site-set of the caller only. -/
def findOwnedSite (store : Store) (caller : Nat) (siteId : Nat) : Option Site :=
  (ownedSites store caller).find? (fun s => s.siteId == siteId)

/-- Modelled from the spec: Get returns one site by id if it is in the
site-set of the caller; else notFound, never revealing whether the site
exists. -/
def getSite (store : Store) (caller : Nat) (siteId : Nat) : Except ApiError Site :=
  match findOwnedSite store caller siteId with
  | some s => .ok s
  | none => .error .notFound

/-- Ordering of sites by assigned id; ids are assigned monotonically so this
is the creation order required for stable listing. -/
def siteLe (a b : Site) : Prop := a.siteId ≤ b.siteId

instance : DecidableRel siteLe := fun a b => Nat.decLe a.siteId b.siteId

instance : IsTotal Site siteLe := ⟨fun a b => Nat.le_total a.siteId b.siteId⟩

instance : IsTrans Site siteLe := ⟨fun _ _ _ h h2 => Nat.le_trans h h2⟩

/-- Modelled from the spec: List returns all sites in the site-set of the
caller, in stable creation order. -/
def listSites (store : Store) (caller : Nat) : Except ApiError SiteListResponse :=
  .ok ⟨List.insertionSort siteLe (ownedSites store caller)⟩

/-- Modelled from the spec: the geometry and capacity range validation of
Register (section 3 ranges). -/
def validCandidate (c : SiteCandidate) : Bool :=
  decide (0 ≤ c.orientation) && decide (c.orientation < 360) &&
  decide (0 ≤ c.tilt) && decide (c.tilt ≤ 90) &&
  decide (-90 ≤ c.latitude) && decide (c.latitude ≤ 90) &&
  decide (-180 ≤ c.longitude) && decide (c.longitude ≤ 180) &&
  decide (0 < c.inverterCapacityKw) && decide (0 < c.moduleCapacityKw)

/-- Modelled from the spec: Register validates ranges, fails with
invalidArgument on violation, else assigns a fresh id, persists the record
and returns the full Site including the id. -/
def register (store : Store) (caller : Nat) (c : SiteCandidate) :
    Except ApiError (Store × Site) :=
  if validCandidate c then
    let s : Site :=
      { siteId := store.nextId, owner := caller,
        clientSiteId := c.clientSiteId, clientSiteName := c.clientSiteName,
        orientation := c.orientation, tilt := c.tilt,
        latitude := c.latitude, longitude := c.longitude,
        inverterCapacityKw := c.inverterCapacityKw,
        moduleCapacityKw := c.moduleCapacityKw }
    .ok ({ store with sites := s :: store.sites, nextId := store.nextId + 1 }, s)
  else .error .invalidArgument

/-- Adding one site record to the store (used to compare two stores that
differ only in the existence of one site). -/
def addSite (store : Store) (s : Site) : Store :=
  { store with sites := s :: store.sites }

/- ### Forecast Selector (spec section 4.3) -/

/-- The strict total order on forecast runs used for selection: later
creation timestamp wins, identical creation timestamps are broken by the
higher run id. -/
def runLt (a b : ForecastRun) : Prop :=
  a.createdUtc < b.createdUtc ∨ (a.createdUtc = b.createdUtc ∧ a.runId < b.runId)

instance : DecidableRel runLt := fun a b => by unfold runLt; infer_instance

/-- The reflexive companion of `runLt` on the (creation, id) key. -/
def keyLe (a b : ForecastRun) : Prop :=
  a.createdUtc < b.createdUtc ∨ (a.createdUtc = b.createdUtc ∧ a.runId ≤ b.runId)

/-- Modelled from the spec: of two runs, the one preferred by the selection
order (latest creation, then higher id). -/
def betterRun (a b : ForecastRun) : ForecastRun :=
  if runLt a b then b else a

/-- Modelled from the spec: the forecast runs of the site that are eligible
for selection: complete, and created at or before `asOf` when given. -/
def candidateRuns (store : Store) (siteId : Nat) (asOf : Option Nat) :
    List ForecastRun :=
  store.runs.filter (fun r =>
    r.siteId == siteId && r.complete &&
      match asOf with
      | some t => decide (r.createdUtc ≤ t)
      | none => true)

/-- Modelled from the spec: select, among complete runs of the site only
(at or before `asOf` when given), the run with the latest creation
timestamp, ties broken by the higher run id; none when no such run
exists. -/
def selectRun (store : Store) (siteId : Nat) (asOf : Option Nat) :
    Option ForecastRun :=
  match candidateRuns store siteId asOf with
  | [] => none
  | r :: rest => some (rest.foldl betterRun r)

/-- The stored values belonging to one forecast run. -/
def runValues (store : Store) (runId : Nat) : List ForecastValue :=
  store.forecastValues.filter (fun v => v.runId == runId)

/-- Ordering of forecast values by target timestamp. -/
def tsLe (a b : ForecastValue) : Prop := a.targetUtc ≤ b.targetUtc

instance : DecidableRel tsLe := fun a b => Nat.decLe a.targetUtc b.targetUtc

instance : IsTotal ForecastValue tsLe := ⟨fun a b => Nat.le_total a.targetUtc b.targetUtc⟩

instance : IsTrans ForecastValue tsLe := ⟨fun _ _ _ h h2 => Nat.le_trans h h2⟩

/-- Modelled from the spec: clip one expected generation value to the
capacity-model ceiling of the site at its target timestamp. -/
def clipValue (ceiling : Site → Nat → ℚ) (site : Site) (v : ForecastValue) :
    ForecastValue :=
  { v with expectedGenerationKw := min v.expectedGenerationKw (ceiling site v.targetUtc) }

/-- Modelled from the spec: the body of a forecast response, carrying the
creation timestamp of the selected run and the ordered clipped values. -/
structure ForecastResponse where
  forecastCreationDatetime : Nat
  forecastValues : List ForecastValue
deriving DecidableEq, Repr

/-- Modelled from the spec: GetForecast resolves the site inside the
site-set of the caller, selects the latest complete run, loads its values
in ascending target-timestamp order, clips each to the capacity ceiling and
returns them with the creation timestamp of the selected run. -/
def getForecast (ceiling : Site → Nat → ℚ) (store : Store) (caller : Nat)
    (siteId : Nat) (asOf : Option Nat) : Except ApiError ForecastResponse :=
  match findOwnedSite store caller siteId with
  | none => .error .notFound
  | some site =>
    match selectRun store siteId asOf with
    | none => .error .notFound
    | some run =>
      .ok { forecastCreationDatetime := run.createdUtc,
            forecastValues :=
              (List.insertionSort tsLe (runValues store run.runId)).map
                (clipValue ceiling site) }

/- ### Telemetry Ingestor (spec section 4.4) -/

/-- Whether a stored actual row carries the (site, timestamp) key. -/
def sameKey (siteId t : Nat) (x : PVActualValue) : Bool :=
  x.siteId == siteId && x.timestampUtc == t

/-- Modelled from the spec: persist a reading as an upsert keyed by
(site, timestamp): a resubmission for an already-seen instant replaces the
stored value (any row with the key is removed and the new value stored)
rather than creating a duplicate row. -/
def upsertActual (acts : List PVActualValue) (a : PVActualValue) :
    List PVActualValue :=
  a :: acts.filter (fun x => !(sameKey a.siteId a.timestampUtc x))

/-- The stored rows carrying a given (site, timestamp) key. -/
def lookupActual (acts : List PVActualValue) (siteId t : Nat) :
    List PVActualValue :=
  acts.filter (sameKey siteId t)

/-- Modelled from the spec: whether a reading was newly inserted or
replaced a stored value. -/
inductive UploadKind where
  | inserted
  | updated
deriving DecidableEq, Repr

/-- Modelled from the spec: the per-timestamp outcome reported by
SubmitActual (inserted or updated, plus the suspect flag). -/
structure UploadStatus where
  timestampUtc : Nat
  kind : UploadKind
  suspect : Bool
deriving DecidableEq, Repr

/-- Modelled from the spec: step 2 of SubmitActual — the whole batch is
rejected when some generation is negative, some timestamp is not valid UTC,
or two entries carry the same timestamp. -/
def batchInvalid (readings : List RawReading) : Bool :=
  readings.any (fun r => decide (r.generationKw < 0) || r.timestampUtc.isNone)
    || !decide (readings.map RawReading.timestampUtc).Nodup

/-- The parsed (timestamp, generation) pairs of a batch; readings whose
timestamp fails to parse are dropped (a validated batch drops none). -/
def parseReadings (readings : List RawReading) : List (Nat × ℚ) :=
  readings.filterMap (fun r => r.timestampUtc.map (fun t => (t, r.generationKw)))

/-- Modelled from the spec: steps 3-5 of SubmitActual — each reading is
upserted in order and reported as inserted or updated, with the suspect
flag set when the measured value exceeds the capacity ceiling by more than
the tolerance margin. The tolerance policy is configurable (design note of
section 9): `tolBound` maps the ceiling to the largest non-suspect value;
the ten-percent example of section 4.4 is `fun c => c * (11 / 10)`. -/
def applyReadings (ceiling : Site → Nat → ℚ) (tolBound : ℚ → ℚ) (site : Site)
    (siteId : Nat) (acts : List PVActualValue) :
    List (Nat × ℚ) → List PVActualValue × List UploadStatus
  | [] => (acts, [])
  | (t, kw) :: rest =>
      let kind := if acts.any (sameKey siteId t) then UploadKind.updated
                  else UploadKind.inserted
      let sus := decide (tolBound (ceiling site t) < kw)
      let res := applyReadings ceiling tolBound site siteId
        (upsertActual acts ⟨siteId, t, kw⟩) rest
      (res.1, ⟨t, kind, sus⟩ :: res.2)

/-- Modelled from the spec: SubmitActual resolves authorization, validates
the whole batch (all-or-nothing), then persists each reading as an upsert
and reports a per-timestamp status. -/
def submitActual (ceiling : Site → Nat → ℚ) (tolBound : ℚ → ℚ) (store : Store)
    (caller : Nat) (siteId : Nat) (readings : List RawReading) :
    Except ApiError (Store × List UploadStatus) :=
  match findOwnedSite store caller siteId with
  | none => .error .notFound
  | some site =>
    if batchInvalid readings then .error .invalidArgument
    else
      let res := applyReadings ceiling tolBound site siteId store.actuals
        (parseReadings readings)
      .ok ({ store with actuals := res.1 }, res.2)

/-- The store with its stored telemetry replaced (the write-back shape used
by SubmitActual). -/
def withActuals (store : Store) (acts : List PVActualValue) : Store :=
  { store with actuals := acts }

/- ### Sample data used by the concrete witnesses -/

/-- A concrete registered site owned by caller 7. -/
def sampleSite : Site := ⟨10, 7, 1, "a", 15, 35, 54, -2, 4, 4⟩

/-- A concrete registered site owned by caller 8. -/
def otherSite : Site := ⟨11, 8, 2, "b", 0, 0, 0, 0, 1, 1⟩

/-- A concrete store: two sites of different owners, one incomplete run and
two complete runs sharing the latest creation timestamp, values stored out
of target-timestamp order. -/
def sampleStore : Store :=
  { sites := [sampleSite, otherSite],
    nextId := 12,
    runs := [⟨1, 10, 5, true⟩, ⟨2, 10, 9, false⟩, ⟨3, 10, 5, true⟩],
    forecastValues := [⟨1, 2, 3⟩, ⟨1, 1, 1⟩, ⟨3, 2, 3⟩, ⟨3, 1, 1⟩],
    actuals := [] }

/-- A concrete candidate with valid geometry and capacities. -/
def sampleCandidate : SiteCandidate := ⟨3, "c", 15, 35, 54, -2, 4, 4⟩

/- ### Helper lemmas: Site Registry -/

/-- Adding a site owned by a different caller leaves the resolved site-set
of the caller unchanged. -/
theorem ownedSites_addSite_ne (store : Store) (s : Site) (caller : Nat)
    (h : s.owner ≠ caller) :
    ownedSites (addSite store s) caller = ownedSites store caller := by
  unfold ownedSites addSite
  simp [List.filter_cons, h]

/-- A site id outside the resolved site-set is not found by the scoped
lookup. -/
theorem findOwnedSite_eq_none (store : Store) (caller sid : Nat)
    (h : sid ∉ ownedSiteIds store caller) :
    findOwnedSite store caller sid = none := by
  unfold findOwnedSite
  refine List.find?_eq_none.mpr ?_
  intro a ha hbeq
  exact h (List.mem_map.mpr ⟨a, ha, by simpa using hbeq⟩)

/-- C5: For a site id outside the resolved site-set of the caller, Get returns
notFound; the responses of Get (at every id) and List are identical whether
or not an unowned site record exists in the store; and List never includes
an id outside the site-set of the caller. -/
theorem getSite_isolation (store : Store) (caller sid : Nat) (s : Site)
    (resp : SiteListResponse)
    (h1 : sid ∉ ownedSiteIds store caller) (h2 : s.owner ≠ caller)
    (h3 : listSites store caller = .ok resp) :
    getSite store caller sid = .error .notFound
    ∧ (∀ q, getSite (addSite store s) caller q = getSite store caller q)
    ∧ listSites (addSite store s) caller = listSites store caller
    ∧ sid ∉ resp.site_list.map Site.siteId := by
  have howned := ownedSites_addSite_ne store s caller h2
  refine ⟨?_, ?_, ?_, ?_⟩
  · unfold getSite
    rw [findOwnedSite_eq_none store caller sid h1]
  · intro q
    unfold getSite findOwnedSite
    rw [howned]
  · unfold listSites
    rw [howned]
  · intro hmem
    apply h1
    unfold listSites at h3
    have hresp : resp = ⟨List.insertionSort siteLe (ownedSites store caller)⟩ := by
      cases h3
      rfl
    rw [hresp] at hmem
    rcases List.mem_map.mp hmem with ⟨a, ha, hid⟩
    have ha2 : a ∈ ownedSites store caller := (List.mem_insertionSort siteLe).mp ha
    exact List.mem_map.mpr ⟨a, ha2, hid⟩

/-- Closed-form check of the isolation theorem on the sample store: caller 7
owns only site 10, site 11 belongs to caller 8. -/
theorem getSite_isolation_witness :
    (11 ∉ ownedSiteIds sampleStore 7 ∧ otherSite.owner ≠ 7
      ∧ listSites sampleStore 7 = .ok ⟨[sampleSite]⟩)
    ∧ (getSite sampleStore 7 11 = .error .notFound
       ∧ (∀ q, getSite (addSite sampleStore otherSite) 7 q = getSite sampleStore 7 q)
       ∧ listSites (addSite sampleStore otherSite) 7 = listSites sampleStore 7
       ∧ 11 ∉ (⟨[sampleSite]⟩ : SiteListResponse).site_list.map Site.siteId) :=
  ⟨⟨by decide, by decide, rfl⟩,
   getSite_isolation sampleStore 7 11 otherSite ⟨[sampleSite]⟩
     (by decide) (by decide) rfl⟩

/-- C10: For a caller whose resolved site-set is empty, the site-listing
operation succeeds and returns a response whose `site_list` field contains
zero sites, rather than failing with notFound or any other error. -/
theorem listSites_empty_ok (store : Store) (caller : Nat)
    (h : ownedSiteIds store caller = []) :
    listSites store caller = .ok ⟨[]⟩ := by
  have howned : ownedSites store caller = [] := by
    unfold ownedSiteIds at h
    exact List.map_eq_nil_iff.mp h
  unfold listSites
  rw [howned]
  rfl

/-- Closed-form check of the empty-listing theorem: caller 9 owns no site of
the sample store. -/
theorem listSites_empty_ok_witness :
    ownedSiteIds sampleStore 9 = [] ∧ listSites sampleStore 9 = .ok ⟨[]⟩ :=
  ⟨by decide, listSites_empty_ok sampleStore 9 (by decide)⟩

/-- C9: For every candidate record whose geometry and capacity fields are in
range, Register succeeds, assigns the fresh id, persists the record with all
candidate fields intact, returns the full Site including the id, and a
subsequent Get by the same caller with that id returns the identical
record. -/
theorem register_roundtrip (store : Store) (caller : Nat) (c : SiteCandidate)
    (h1 : 0 ≤ c.orientation) (h2 : c.orientation < 360)
    (h3 : 0 ≤ c.tilt) (h4 : c.tilt ≤ 90)
    (h5 : -90 ≤ c.latitude) (h6 : c.latitude ≤ 90)
    (h7 : -180 ≤ c.longitude) (h8 : c.longitude ≤ 180)
    (h9 : 0 < c.inverterCapacityKw) (h10 : 0 < c.moduleCapacityKw) :
    ∃ st s, register store caller c = .ok (st, s)
      ∧ s.siteId = store.nextId ∧ s.owner = caller
      ∧ s.clientSiteId = c.clientSiteId ∧ s.clientSiteName = c.clientSiteName
      ∧ s.orientation = c.orientation ∧ s.tilt = c.tilt
      ∧ s.latitude = c.latitude ∧ s.longitude = c.longitude
      ∧ s.inverterCapacityKw = c.inverterCapacityKw
      ∧ s.moduleCapacityKw = c.moduleCapacityKw
      ∧ st.sites = s :: store.sites
      ∧ getSite st caller s.siteId = .ok s := by
  have hvalid : validCandidate c = true := by
    unfold validCandidate
    simp only [Bool.and_eq_true, decide_eq_true_eq]
    exact ⟨⟨⟨⟨⟨⟨⟨⟨⟨h1, h2⟩, h3⟩, h4⟩, h5⟩, h6⟩, h7⟩, h8⟩, h9⟩, h10⟩
  unfold register
  rw [if_pos hvalid]
  refine ⟨_, _, rfl, rfl, rfl, rfl, rfl, rfl, rfl, rfl, rfl, rfl, rfl, rfl, ?_⟩
  unfold getSite findOwnedSite ownedSites
  simp

/-- Closed-form check of the registration round trip on the sample store and
the sample candidate. -/
theorem register_roundtrip_witness :
    (0 ≤ sampleCandidate.orientation ∧ sampleCandidate.orientation < 360
      ∧ 0 ≤ sampleCandidate.tilt ∧ sampleCandidate.tilt ≤ 90
      ∧ -90 ≤ sampleCandidate.latitude ∧ sampleCandidate.latitude ≤ 90
      ∧ -180 ≤ sampleCandidate.longitude ∧ sampleCandidate.longitude ≤ 180
      ∧ 0 < sampleCandidate.inverterCapacityKw
      ∧ 0 < sampleCandidate.moduleCapacityKw)
    ∧ (∃ st s, register sampleStore 7 sampleCandidate = .ok (st, s)
        ∧ s.siteId = sampleStore.nextId ∧ s.owner = 7
        ∧ s.clientSiteId = sampleCandidate.clientSiteId
        ∧ s.clientSiteName = sampleCandidate.clientSiteName
        ∧ s.orientation = sampleCandidate.orientation
        ∧ s.tilt = sampleCandidate.tilt
        ∧ s.latitude = sampleCandidate.latitude
        ∧ s.longitude = sampleCandidate.longitude
        ∧ s.inverterCapacityKw = sampleCandidate.inverterCapacityKw
        ∧ s.moduleCapacityKw = sampleCandidate.moduleCapacityKw
        ∧ st.sites = s :: sampleStore.sites
        ∧ getSite st 7 s.siteId = .ok s) :=
  ⟨⟨by decide, by decide, by decide, by decide, by decide, by decide,
    by decide, by decide, by decide, by decide⟩,
   register_roundtrip sampleStore 7 sampleCandidate (by decide) (by decide)
     (by decide) (by decide) (by decide) (by decide) (by decide) (by decide)
     (by decide) (by decide)⟩

/- ### Helper lemmas: Forecast Selector -/

/-- A successful GetForecast determines a selected run and a found site, and
the response body is the sorted, clipped value list of that run. -/
theorem getForecast_ok_inv (ceiling : Site → Nat → ℚ) (store : Store)
    (caller sid : Nat) (asOf : Option Nat) (resp : ForecastResponse)
    (hok : getForecast ceiling store caller sid asOf = .ok resp) :
    ∃ site run, findOwnedSite store caller sid = some site
      ∧ selectRun store sid asOf = some run
      ∧ resp = { forecastCreationDatetime := run.createdUtc,
                 forecastValues :=
                   (List.insertionSort tsLe (runValues store run.runId)).map
                     (clipValue ceiling site) } := by
  unfold getForecast at hok
  cases hfo : findOwnedSite store caller sid with
  | none => rw [hfo] at hok; cases hok
  | some site =>
    rw [hfo] at hok
    cases hsel : selectRun store sid asOf with
    | none => rw [hsel] at hok; cases hok
    | some run =>
      rw [hsel] at hok
      cases hok
      exact ⟨site, run, rfl, rfl, rfl⟩

/-- C7: The forecast creation time carried by a successful GetForecast
response equals the creation timestamp of the selected forecast run (it is
determined by the selected run, not by the time of the request, which the
model does not even consume). -/
theorem getForecast_creation_time (ceiling : Site → Nat → ℚ) (store : Store)
    (caller sid : Nat) (asOf : Option Nat) (resp : ForecastResponse)
    (hok : getForecast ceiling store caller sid asOf = .ok resp) :
    ∃ run, selectRun store sid asOf = some run
      ∧ resp.forecastCreationDatetime = run.createdUtc := by
  obtain ⟨site, run, _, hsel, hresp⟩ :=
    getForecast_ok_inv ceiling store caller sid asOf resp hok
  exact ⟨run, hsel, by rw [hresp]⟩

/-- Closed-form check of the creation-time theorem on the sample store: the
selected run was created at instant 5 and the response carries 5. -/
theorem getForecast_creation_time_witness :
    getForecast (fun _ _ => 2) sampleStore 7 10 none =
      .ok ⟨5, [⟨3, 1, 1⟩, ⟨3, 2, 2⟩]⟩
    ∧ ∃ run, selectRun sampleStore 10 none = some run
        ∧ (⟨5, [⟨3, 1, 1⟩, ⟨3, 2, 2⟩]⟩ : ForecastResponse).forecastCreationDatetime
            = run.createdUtc :=
  ⟨rfl, getForecast_creation_time (fun _ _ => 2) sampleStore 7 10 none
    ⟨5, [⟨3, 1, 1⟩, ⟨3, 2, 2⟩]⟩ rfl⟩

/-- C2: Every value of a successful GetForecast response equals the minimum
of a stored predicted value of the selected run at the same target timestamp
and the capacity ceiling of the site at that timestamp; hence each returned
value is at most the ceiling, and clipping never raises a value above the
stored prediction. -/
theorem getForecast_clipped (ceiling : Site → Nat → ℚ) (store : Store)
    (caller sid : Nat) (asOf : Option Nat) (resp : ForecastResponse)
    (site : Site)
    (hsite : findOwnedSite store caller sid = some site)
    (hok : getForecast ceiling store caller sid asOf = .ok resp) :
    ∃ run, selectRun store sid asOf = some run
      ∧ ∀ v ∈ resp.forecastValues,
          v.expectedGenerationKw ≤ ceiling site v.targetUtc
          ∧ ∃ p, p ∈ runValues store run.runId
              ∧ p.targetUtc = v.targetUtc
              ∧ v.expectedGenerationKw
                  = min p.expectedGenerationKw (ceiling site p.targetUtc)
              ∧ v.expectedGenerationKw ≤ p.expectedGenerationKw := by
  obtain ⟨site2, run, hsite2, hsel, hresp⟩ :=
    getForecast_ok_inv ceiling store caller sid asOf resp hok
  have hsiteEq : site2 = site := by
    rw [hsite] at hsite2
    cases hsite2
    rfl
  rw [hsiteEq] at hresp
  refine ⟨run, hsel, ?_⟩
  intro v hv
  rw [hresp] at hv
  rcases List.mem_map.mp hv with ⟨p, hp, hclip⟩
  have hpmem : p ∈ runValues store run.runId := (List.mem_insertionSort tsLe).mp hp
  have hts : v.targetUtc = p.targetUtc := by rw [← hclip]; rfl
  have hval : v.expectedGenerationKw
      = min p.expectedGenerationKw (ceiling site p.targetUtc) := by
    rw [← hclip]; rfl
  refine ⟨?_, p, hpmem, hts.symm, hval, ?_⟩
  · rw [hval, hts]
    exact min_le_right _ _
  · rw [hval]
    exact min_le_left _ _

/-- Closed-form check of the clipping theorem on the sample store with a
constant ceiling of 2: the stored prediction 3 at instant 2 is returned as
2, the stored 1 at instant 1 stays 1. -/
theorem getForecast_clipped_witness :
    findOwnedSite sampleStore 7 10 = some sampleSite
    ∧ getForecast (fun _ _ => 2) sampleStore 7 10 none =
        .ok ⟨5, [⟨3, 1, 1⟩, ⟨3, 2, 2⟩]⟩
    ∧ ∃ run, selectRun sampleStore 10 none = some run
        ∧ ∀ v ∈ (⟨5, [⟨3, 1, 1⟩, ⟨3, 2, 2⟩]⟩ : ForecastResponse).forecastValues,
            v.expectedGenerationKw ≤ (fun (_ : Site) (_ : Nat) => (2 : ℚ)) sampleSite v.targetUtc
            ∧ ∃ p, p ∈ runValues sampleStore run.runId
                ∧ p.targetUtc = v.targetUtc
                ∧ v.expectedGenerationKw
                    = min p.expectedGenerationKw
                        ((fun (_ : Site) (_ : Nat) => (2 : ℚ)) sampleSite p.targetUtc)
                ∧ v.expectedGenerationKw ≤ p.expectedGenerationKw :=
  ⟨rfl, rfl, getForecast_clipped (fun _ _ => 2) sampleStore 7 10 none
    ⟨5, [⟨3, 1, 1⟩, ⟨3, 2, 2⟩]⟩ sampleSite rfl rfl⟩

/-- In a list of values all belonging to one run, distinctness of the
(run, target timestamp) keys gives distinctness of the target timestamps. -/
theorem nodup_ts_of_nodup_key (rid : Nat) :
    ∀ l : List ForecastValue, (∀ v ∈ l, v.runId = rid) →
      (l.map (fun v => (v.runId, v.targetUtc))).Nodup →
      (l.map ForecastValue.targetUtc).Nodup := by
  intro l
  induction l with
  | nil => intro _ _; simp
  | cons v l ih =>
    intro hall hnd
    rw [List.map_cons, List.nodup_cons] at hnd ⊢
    refine ⟨?_, ih (fun w hw => hall w (List.mem_cons_of_mem v hw)) hnd.2⟩
    intro hmem
    rcases List.mem_map.mp hmem with ⟨w, hw, hts⟩
    apply hnd.1
    refine List.mem_map.mpr ⟨w, hw, ?_⟩
    rw [hts, hall w (List.mem_cons_of_mem v hw),
        hall v (List.mem_cons_self v l)]

/-- Every stored value of a run carries the id of that run. -/
theorem runValues_runId (store : Store) (rid : Nat) :
    ∀ v ∈ runValues store rid, v.runId = rid := by
  intro v hv
  have := (List.mem_filter.mp hv).2
  simpa using this

/-- C6: For every site with a complete forecast run, a successful
GetForecast returns its values in strictly increasing target-timestamp
order, regardless of the storage order of the values of the underlying run,
given the data-model invariant that (run, target timestamp) keys are
unique. -/
theorem getForecast_strict_order (ceiling : Site → Nat → ℚ) (store : Store)
    (caller sid : Nat) (asOf : Option Nat) (resp : ForecastResponse)
    (hnd : (store.forecastValues.map (fun v => (v.runId, v.targetUtc))).Nodup)
    (hok : getForecast ceiling store caller sid asOf = .ok resp) :
    resp.forecastValues.Pairwise (fun a b => a.targetUtc < b.targetUtc) := by
  obtain ⟨site, run, _, _, hresp⟩ :=
    getForecast_ok_inv ceiling store caller sid asOf resp hok
  rw [hresp]
  set vs := runValues store run.runId with hvs
  have hsub : vs.Sublist store.forecastValues := List.filter_sublist _
  have hndvs : (vs.map (fun v => (v.runId, v.targetUtc))).Nodup :=
    hnd.sublist (hsub.map _)
  have hts : (vs.map ForecastValue.targetUtc).Nodup :=
    nodup_ts_of_nodup_key run.runId vs (runValues_runId store run.runId) hndvs
  have hperm : (List.insertionSort tsLe vs).Perm vs := List.perm_insertionSort tsLe vs
  have htsSorted : ((List.insertionSort tsLe vs).map ForecastValue.targetUtc).Nodup :=
    ((hperm.map ForecastValue.targetUtc).nodup_iff).mpr hts
  have hle : (List.insertionSort tsLe vs).Pairwise tsLe :=
    List.sorted_insertionSort tsLe vs
  have hne : (List.insertionSort tsLe vs).Pairwise
      (fun a b => a.targetUtc ≠ b.targetUtc) :=
    List.pairwise_map.mp htsSorted
  have hlt : (List.insertionSort tsLe vs).Pairwise
      (fun a b => a.targetUtc < b.targetUtc) :=
    (hle.and hne).imp (fun h => lt_of_le_of_ne h.1 h.2)
  exact List.pairwise_map.mpr (hlt.imp (fun h => h))

/-- Closed-form check of the ordering theorem: the sample store holds the
values of run 3 out of order and the response is strictly increasing. -/
theorem getForecast_strict_order_witness :
    (sampleStore.forecastValues.map (fun v => (v.runId, v.targetUtc))).Nodup
    ∧ getForecast (fun _ _ => 2) sampleStore 7 10 none =
        .ok ⟨5, [⟨3, 1, 1⟩, ⟨3, 2, 2⟩]⟩
    ∧ (⟨5, [⟨3, 1, 1⟩, ⟨3, 2, 2⟩]⟩ : ForecastResponse).forecastValues.Pairwise
        (fun a b => a.targetUtc < b.targetUtc) :=
  ⟨by decide, rfl, getForecast_strict_order (fun _ _ => 2) sampleStore 7 10 none
    ⟨5, [⟨3, 1, 1⟩, ⟨3, 2, 2⟩]⟩ (by decide) rfl⟩

/-- The selection key order is reflexive. -/
theorem keyLe_refl (a : ForecastRun) : keyLe a a := Or.inr ⟨rfl, Nat.le_refl _⟩

/-- The selection key order is transitive. -/
theorem keyLe_trans (a b c : ForecastRun) (h1 : keyLe a b) (h2 : keyLe b c) :
    keyLe a c := by
  unfold keyLe at h1 h2 ⊢
  omega

/-- The preferred of two runs is one of the two. -/
theorem betterRun_cases (a b : ForecastRun) :
    betterRun a b = a ∨ betterRun a b = b := by
  unfold betterRun
  split
  · right; rfl
  · left; rfl

/-- The first argument is dominated by the preferred run. -/
theorem keyLe_betterRun_left (a b : ForecastRun) : keyLe a (betterRun a b) := by
  unfold betterRun
  split
  · next h =>
      unfold runLt at h
      unfold keyLe
      omega
  · exact keyLe_refl a

/-- The second argument is dominated by the preferred run. -/
theorem keyLe_betterRun_right (a b : ForecastRun) : keyLe b (betterRun a b) := by
  unfold betterRun
  split
  · exact keyLe_refl b
  · next h =>
      unfold runLt at h
      unfold keyLe
      omega

/-- Folding `betterRun` over a list from an initial run yields the initial
run or a member, and dominates the initial run and every member in the
selection key order. -/
theorem foldl_betterRun_spec (l : List ForecastRun) :
    ∀ a : ForecastRun,
      (l.foldl betterRun a = a ∨ l.foldl betterRun a ∈ l)
      ∧ keyLe a (l.foldl betterRun a)
      ∧ ∀ x ∈ l, keyLe x (l.foldl betterRun a) := by
  induction l with
  | nil => intro a; exact ⟨Or.inl rfl, keyLe_refl a, by simp⟩
  | cons b l ih =>
    intro a
    rw [List.foldl_cons]
    obtain ⟨hmem, hacc, hall⟩ := ih (betterRun a b)
    refine ⟨?_, ?_, ?_⟩
    · rcases hmem with h | h
      · rcases betterRun_cases a b with h2 | h2
        · left; rw [h, h2]
        · right; rw [h, h2]; exact List.mem_cons_self b l
      · right; exact List.mem_cons_of_mem b h
    · exact keyLe_trans _ _ _ (keyLe_betterRun_left a b) hacc
    · intro x hx
      rcases List.mem_cons.mp hx with rfl | hx
      · exact keyLe_trans _ _ _ (keyLe_betterRun_right a x) hacc
      · exact hall x hx

/-- The selector returns none exactly when no eligible run exists. -/
theorem selectRun_none_iff (store : Store) (sid : Nat) (asOf : Option Nat) :
    selectRun store sid asOf = none ↔ candidateRuns store sid asOf = [] := by
  unfold selectRun
  cases candidateRuns store sid asOf <;> simp

/-- Membership in the eligible-run list unpacks to the eligibility facts. -/
theorem mem_candidateRuns (store : Store) (sid : Nat) (asOf : Option Nat)
    (x : ForecastRun) (hx : x ∈ candidateRuns store sid asOf) :
    x ∈ store.runs ∧ x.siteId = sid ∧ x.complete = true
    ∧ ∀ t, asOf = some t → x.createdUtc ≤ t := by
  unfold candidateRuns at hx
  have h := List.mem_filter.mp hx
  refine ⟨h.1, ?_⟩
  have hb := h.2
  cases asOf with
  | none =>
    simp only [Bool.and_true, Bool.and_eq_true, beq_iff_eq] at hb
    exact ⟨hb.1, hb.2, by intro t ht; cases ht⟩
  | some t0 =>
    simp only [Bool.and_eq_true, beq_iff_eq, decide_eq_true_eq] at hb
    refine ⟨hb.1.1, hb.1.2, ?_⟩
    intro t ht
    cases ht
    exact hb.2

/-- C1: The selector picks, among the complete runs of the site within the
optional asOf bound only, the run with the latest creation timestamp, ties
broken by the higher run id, so that (with monotonically assigned distinct
run ids) the selected run strictly dominates every other eligible run; and
when no eligible run exists GetForecast fails with notFound rather than
returning a series. -/
theorem selectRun_latest_complete (ceiling : Site → Nat → ℚ) (store : Store)
    (caller sid : Nat) (asOf : Option Nat)
    (hids : (store.runs.map ForecastRun.runId).Nodup) :
    (selectRun store sid asOf = none ↔ candidateRuns store sid asOf = [])
    ∧ (selectRun store sid asOf = none →
        getForecast ceiling store caller sid asOf = .error .notFound)
    ∧ ∀ r, selectRun store sid asOf = some r →
        r ∈ candidateRuns store sid asOf
        ∧ r.siteId = sid ∧ r.complete = true
        ∧ (∀ t, asOf = some t → r.createdUtc ≤ t)
        ∧ ∀ x ∈ candidateRuns store sid asOf, x = r ∨ runLt x r := by
  refine ⟨selectRun_none_iff store sid asOf, ?_, ?_⟩
  · intro h
    unfold getForecast
    cases hfo : findOwnedSite store caller sid
    · rfl
    · rw [h]
  · intro r hr
    unfold selectRun at hr
    cases hc : candidateRuns store sid asOf with
    | nil => rw [hc] at hr; cases hr
    | cons r0 rest =>
      rw [hc] at hr
      have hfold : rest.foldl betterRun r0 = r := by
        injection hr
      obtain ⟨hmem, hacc, hall⟩ := foldl_betterRun_spec rest r0
      rw [hfold] at hmem hacc hall
      have hrmem2 : r ∈ r0 :: rest := by
        rcases hmem with h | h
        · rw [h]; exact List.mem_cons_self r0 rest
        · exact List.mem_cons_of_mem r0 h
      have hrmem : r ∈ candidateRuns store sid asOf := by
        rw [hc]; exact hrmem2
      have hfacts := mem_candidateRuns store sid asOf r hrmem
      refine ⟨hrmem2, hfacts.2.1, hfacts.2.2.1, hfacts.2.2.2, ?_⟩
      intro x hx
      have hxc : x ∈ candidateRuns store sid asOf := by
        rw [hc]; exact hx
      have hxkey : keyLe x r := by
        rcases List.mem_cons.mp hx with rfl | hx2
        · exact hacc
        · exact hall x hx2
      rcases hxkey with hlt | ⟨hceq, hidle⟩
      · right; exact Or.inl hlt
      · rcases Nat.lt_or_ge x.runId r.runId with hidlt | hidge
        · right; exact Or.inr ⟨hceq, hidlt⟩
        · left
          have hideq : x.runId = r.runId := Nat.le_antisymm hidle hidge
          have hxruns := (mem_candidateRuns store sid asOf x hxc).1
          have hrruns := hfacts.1
          exact List.inj_on_of_nodup_map hids hxruns hrruns hideq

/-- Closed-form check of the selection theorem on the sample store: runs 1
and 3 are complete with the same creation instant 5, run 2 is newer but
incomplete; the selector picks run 3 by the id tie-break, and site 11 with
no complete run gets notFound. -/
theorem selectRun_latest_complete_witness :
    (sampleStore.runs.map ForecastRun.runId).Nodup
    ∧ ((selectRun sampleStore 10 none = none ↔ candidateRuns sampleStore 10 none = [])
       ∧ (selectRun sampleStore 10 none = none →
           getForecast (fun _ _ => 2) sampleStore 7 10 none = .error .notFound)
       ∧ ∀ r, selectRun sampleStore 10 none = some r →
           r ∈ candidateRuns sampleStore 10 none
           ∧ r.siteId = 10 ∧ r.complete = true
           ∧ (∀ t, (none : Option Nat) = some t → r.createdUtc ≤ t)
           ∧ ∀ x ∈ candidateRuns sampleStore 10 none, x = r ∨ runLt x r)
    ∧ selectRun sampleStore 10 none = some ⟨3, 10, 5, true⟩
    ∧ selectRun sampleStore 11 none = none
    ∧ getForecast (fun _ _ => 2) sampleStore 8 11 none = .error .notFound :=
  ⟨by decide,
   selectRun_latest_complete (fun _ _ => 2) sampleStore 7 10 none (by decide),
   rfl, rfl, rfl⟩

/- ### Helper lemmas: Telemetry Ingestor -/

/-- The batch-validation flag unpacked into its semantic conditions. -/
theorem batchInvalid_iff (readings : List RawReading) :
    batchInvalid readings = true ↔
      ((∃ r ∈ readings, r.generationKw < 0 ∨ r.timestampUtc = none)
        ∨ ¬ (readings.map RawReading.timestampUtc).Nodup) := by
  unfold batchInvalid
  simp [List.any_eq_true, Option.isNone_iff_eq_none]

/-- C4: For an authorized site, SubmitActual rejects the whole batch with
invalidArgument exactly when some generation is negative, some timestamp is
not a valid UTC instant, or two entries of the batch share a timestamp; a
batch failing validation never yields any (even partial) success, so the
stored telemetry is untouched. -/
theorem submitActual_all_or_nothing (ceiling : Site → Nat → ℚ)
    (tolBound : ℚ → ℚ) (store : Store) (caller sid : Nat)
    (readings : List RawReading) (site : Site)
    (hsite : findOwnedSite store caller sid = some site) :
    (submitActual ceiling tolBound store caller sid readings
        = .error .invalidArgument
      ↔ ((∃ r ∈ readings, r.generationKw < 0 ∨ r.timestampUtc = none)
          ∨ ¬ (readings.map RawReading.timestampUtc).Nodup))
    ∧ (batchInvalid readings = true →
        ∀ st sts, submitActual ceiling tolBound store caller sid readings
          ≠ .ok (st, sts)) := by
  have hsub : submitActual ceiling tolBound store caller sid readings
      = if batchInvalid readings then .error .invalidArgument
        else
          let res := applyReadings ceiling tolBound site sid store.actuals
            (parseReadings readings)
          .ok ({ store with actuals := res.1 }, res.2) := by
    unfold submitActual
    rw [hsite]
  constructor
  · rw [← batchInvalid_iff, hsub]
    by_cases h : batchInvalid readings = true
    · rw [if_pos h]
      simp [h]
    · rw [if_neg h]
      simp [h]
  · intro h st sts
    rw [hsub, if_pos h]
    intro hcon
    cases hcon

/-- Closed-form check of batch rejection: a batch containing a negative
reading is rejected whole on the sample store. -/
theorem submitActual_all_or_nothing_witness :
    findOwnedSite sampleStore 7 10 = some sampleSite
    ∧ ((submitActual (fun _ _ => 4) (fun c => c) sampleStore 7 10
          [⟨some 5, -1⟩, ⟨some 6, 2⟩] = .error .invalidArgument
        ↔ ((∃ r ∈ [(⟨some 5, -1⟩ : RawReading), ⟨some 6, 2⟩],
              r.generationKw < 0 ∨ r.timestampUtc = none)
            ∨ ¬ ([(⟨some 5, -1⟩ : RawReading), ⟨some 6, 2⟩].map
                  RawReading.timestampUtc).Nodup))
       ∧ (batchInvalid [⟨some 5, -1⟩, ⟨some 6, 2⟩] = true →
           ∀ st sts, submitActual (fun _ _ => 4) (fun c => c) sampleStore 7 10
             [⟨some 5, -1⟩, ⟨some 6, 2⟩] ≠ .ok (st, sts))) :=
  ⟨rfl, submitActual_all_or_nothing (fun _ _ => 4) (fun c => c) sampleStore 7 10
    [⟨some 5, -1⟩, ⟨some 6, 2⟩] sampleSite rfl⟩

/-- A row carries its own key. -/
theorem sameKey_self (a : PVActualValue) :
    sameKey a.siteId a.timestampUtc a = true := by
  unfold sameKey
  simp

/-- A key predicate in Prop form. -/
theorem sameKey_eq_true_iff (sid t : Nat) (x : PVActualValue) :
    sameKey sid t x = true ↔ x.siteId = sid ∧ x.timestampUtc = t := by
  unfold sameKey
  simp

/-- After an upsert, the rows carrying the upserted key are exactly the one
new row. -/
theorem lookupActual_upsert_self (acts : List PVActualValue)
    (a : PVActualValue) :
    lookupActual (upsertActual acts a) a.siteId a.timestampUtc = [a] := by
  unfold lookupActual upsertActual
  rw [List.filter_cons]
  rw [sameKey_self]
  simp only [List.filter_filter, if_true]
  have hz : ∀ x ∈ acts,
      (sameKey a.siteId a.timestampUtc x && !sameKey a.siteId a.timestampUtc x)
        = (fun _ => false) x := fun x _ => Bool.and_not_self _
  rw [List.filter_congr hz]
  simp

/-- An upsert leaves the rows of every other key unchanged. -/
theorem lookupActual_upsert_other (acts : List PVActualValue)
    (a : PVActualValue) (sid t : Nat)
    (h : sameKey sid t a = false) :
    lookupActual (upsertActual acts a) sid t = lookupActual acts sid t := by
  have hna : ¬(a.siteId = sid ∧ a.timestampUtc = t) := by
    intro hc
    rw [(sameKey_eq_true_iff sid t a).mpr hc] at h
    cases h
  unfold lookupActual upsertActual
  rw [List.filter_cons]
  rw [h]
  simp only [List.filter_filter]
  refine List.filter_congr ?_
  intro x _
  cases hx : sameKey sid t x with
  | false => simp
  | true =>
    have hxp := (sameKey_eq_true_iff sid t x).mp hx
    have hax : sameKey a.siteId a.timestampUtc x = false := by
      cases hax2 : sameKey a.siteId a.timestampUtc x with
      | false => rfl
      | true =>
        exfalso
        have hxa := (sameKey_eq_true_iff a.siteId a.timestampUtc x).mp hax2
        exact hna ⟨hxa.1.symm.trans hxp.1, hxa.2.symm.trans hxp.2⟩
    simp [hax]

/-- Upserting the same row twice equals upserting it once. -/
theorem upsertActual_idem (acts : List PVActualValue) (a : PVActualValue) :
    upsertActual (upsertActual acts a) a = upsertActual acts a := by
  unfold upsertActual
  rw [List.filter_cons]
  rw [show (!sameKey a.siteId a.timestampUtc a) = false by
        rw [sameKey_self]; rfl]
  simp only [List.filter_filter]
  have hz : ∀ x ∈ acts,
      (!sameKey a.siteId a.timestampUtc x && !sameKey a.siteId a.timestampUtc x)
        = (fun y => !sameKey a.siteId a.timestampUtc y) x :=
    fun x _ => Bool.and_self _
  rw [List.filter_congr hz]
  simp

/-- C3: SubmitActual persists a reading as an upsert keyed by
(site, timestamp): resubmitting the same reading leaves the stored
telemetry unchanged (idempotence under retry), with exactly one stored row
for the key — the latest submitted — never two. -/
theorem submitActual_idempotent (ceiling : Site → Nat → ℚ) (tolBound : ℚ → ℚ)
    (store : Store) (caller sid : Nat) (site : Site) (t : Nat) (kw : ℚ)
    (hsite : findOwnedSite store caller sid = some site)
    (hkw : 0 ≤ kw) :
    ∃ st1 sts1 st2 sts2,
      submitActual ceiling tolBound store caller sid [⟨some t, kw⟩]
        = .ok (st1, sts1)
      ∧ submitActual ceiling tolBound st1 caller sid [⟨some t, kw⟩]
        = .ok (st2, sts2)
      ∧ st2.actuals = st1.actuals
      ∧ lookupActual st1.actuals sid t = [⟨sid, t, kw⟩]
      ∧ lookupActual st2.actuals sid t = [⟨sid, t, kw⟩] := by
  have hne : ¬ batchInvalid [⟨some t, kw⟩] = true := by
    intro hcon
    rcases (batchInvalid_iff _).mp hcon with ⟨r, hr, hbad⟩ | hdup
    · rcases List.mem_singleton.mp hr with rfl
      rcases hbad with hneg | hnone
      · exact absurd hneg (not_lt.mpr hkw)
      · cases hnone
    · exact hdup (by simp)
  have hsite2 : findOwnedSite
      (withActuals store (upsertActual store.actuals ⟨sid, t, kw⟩))
      caller sid = some site := hsite
  have h1 : submitActual ceiling tolBound store caller sid [⟨some t, kw⟩]
      = .ok (withActuals store (upsertActual store.actuals ⟨sid, t, kw⟩),
             [⟨t, (if store.actuals.any (sameKey sid t) then UploadKind.updated
                   else UploadKind.inserted),
               decide (tolBound (ceiling site t) < kw)⟩]) := by
    simp only [submitActual, hsite]
    rw [if_neg hne]
    rfl
  have h2 : submitActual ceiling tolBound
        (withActuals store (upsertActual store.actuals ⟨sid, t, kw⟩))
        caller sid [⟨some t, kw⟩]
      = .ok (withActuals store
               (upsertActual (upsertActual store.actuals ⟨sid, t, kw⟩)
                 ⟨sid, t, kw⟩),
             [⟨t, (if (upsertActual store.actuals ⟨sid, t, kw⟩).any (sameKey sid t)
                   then UploadKind.updated else UploadKind.inserted),
               decide (tolBound (ceiling site t) < kw)⟩]) := by
    simp only [submitActual, hsite2]
    rw [if_neg hne]
    rfl
  refine ⟨_, _, _, _, h1, h2, ?_, ?_, ?_⟩
  · show upsertActual (upsertActual store.actuals ⟨sid, t, kw⟩) ⟨sid, t, kw⟩
      = upsertActual store.actuals ⟨sid, t, kw⟩
    exact upsertActual_idem store.actuals ⟨sid, t, kw⟩
  · exact lookupActual_upsert_self store.actuals ⟨sid, t, kw⟩
  · show lookupActual
        (upsertActual (upsertActual store.actuals ⟨sid, t, kw⟩) ⟨sid, t, kw⟩)
        sid t = [⟨sid, t, kw⟩]
    rw [upsertActual_idem store.actuals ⟨sid, t, kw⟩]
    exact lookupActual_upsert_self store.actuals ⟨sid, t, kw⟩

/-- Closed-form check of the idempotence theorem: submitting the reading
(instant 5, 3 kW) twice to site 10 of the sample store. -/
theorem submitActual_idempotent_witness :
    (findOwnedSite sampleStore 7 10 = some sampleSite ∧ (0 : ℚ) ≤ 3)
    ∧ ∃ st1 sts1 st2 sts2,
        submitActual (fun _ _ => 4) (fun c => c) sampleStore 7 10 [⟨some 5, 3⟩]
          = .ok (st1, sts1)
        ∧ submitActual (fun _ _ => 4) (fun c => c) st1 7 10 [⟨some 5, 3⟩]
          = .ok (st2, sts2)
        ∧ st2.actuals = st1.actuals
        ∧ lookupActual st1.actuals 10 5 = [⟨10, 5, 3⟩]
        ∧ lookupActual st2.actuals 10 5 = [⟨10, 5, 3⟩] :=
  ⟨⟨rfl, by decide⟩,
   submitActual_idempotent (fun _ _ => 4) (fun c => c) sampleStore 7 10
     sampleSite 5 3 rfl (by decide)⟩

/-- A reading with a parsed timestamp survives batch parsing. -/
theorem mem_parseReadings (readings : List RawReading) (t : Nat) (kw : ℚ)
    (h : (⟨some t, kw⟩ : RawReading) ∈ readings) :
    (t, kw) ∈ parseReadings readings := by
  unfold parseReadings
  exact List.mem_filterMap.mpr ⟨⟨some t, kw⟩, h, rfl⟩

/-- Every parsed timestamp comes from a raw timestamp of the batch. -/
theorem parse_fst_mem (readings : List RawReading) (x : Nat)
    (h : x ∈ (parseReadings readings).map Prod.fst) :
    some x ∈ readings.map RawReading.timestampUtc := by
  rcases List.mem_map.mp h with ⟨p, hp, hfst⟩
  rcases List.mem_filterMap.mp hp with ⟨r, hr, hpr⟩
  rcases Option.map_eq_some'.mp hpr with ⟨t0, hrt, hpt⟩
  refine List.mem_map.mpr ⟨r, hr, ?_⟩
  rw [hrt]
  rw [← hpt] at hfst
  exact congrArg some (by simpa using hfst)

/-- Distinct raw timestamps give distinct parsed timestamps. -/
theorem parse_fst_nodup (readings : List RawReading)
    (h : (readings.map RawReading.timestampUtc).Nodup) :
    ((parseReadings readings).map Prod.fst).Nodup := by
  induction readings with
  | nil => simp [parseReadings]
  | cons r rest ih =>
    rw [List.map_cons, List.nodup_cons] at h
    cases hr : r.timestampUtc with
    | none =>
      have : parseReadings (r :: rest) = parseReadings rest := by
        unfold parseReadings
        rw [List.filterMap_cons, hr]
        rfl
      rw [this]
      exact ih h.2
    | some t0 =>
      have : parseReadings (r :: rest)
          = (t0, r.generationKw) :: parseReadings rest := by
        unfold parseReadings
        rw [List.filterMap_cons, hr]
        rfl
      rw [this, List.map_cons, List.nodup_cons]
      refine ⟨?_, ih h.2⟩
      intro hmem
      apply h.1
      rw [hr]
      exact parse_fst_mem rest t0 hmem

/-- Processing readings of other timestamps leaves the rows of a key
unchanged. -/
theorem applyReadings_lookup_other (ceiling : Site → Nat → ℚ)
    (tolBound : ℚ → ℚ) (site : Site) (sid t : Nat) :
    ∀ (l : List (Nat × ℚ)) (acts : List PVActualValue),
      t ∉ l.map Prod.fst →
      lookupActual (applyReadings ceiling tolBound site sid acts l).1 sid t
        = lookupActual acts sid t := by
  intro l
  induction l with
  | nil => intro acts _; rfl
  | cons p rest ih =>
    intro acts h
    obtain ⟨t0, k0⟩ := p
    rw [List.map_cons, List.mem_cons] at h
    push_neg at h
    have hkey : sameKey sid t ⟨sid, t0, k0⟩ = false := by
      simp only [sameKey]
      simp
      omega
    simp only [applyReadings]
    rw [ih (upsertActual acts ⟨sid, t0, k0⟩) h.2]
    exact lookupActual_upsert_other acts ⟨sid, t0, k0⟩ sid t hkey

/-- A reading of a duplicate-free parsed batch ends up stored as exactly
one row under its key. -/
theorem applyReadings_lookup_mem (ceiling : Site → Nat → ℚ)
    (tolBound : ℚ → ℚ) (site : Site) (sid t : Nat) (kw : ℚ) :
    ∀ (l : List (Nat × ℚ)) (acts : List PVActualValue),
      (l.map Prod.fst).Nodup → (t, kw) ∈ l →
      lookupActual (applyReadings ceiling tolBound site sid acts l).1 sid t
        = [⟨sid, t, kw⟩] := by
  intro l
  induction l with
  | nil => intro acts _ h; cases h
  | cons p rest ih =>
    intro acts hnd hmem
    obtain ⟨t0, k0⟩ := p
    rw [List.map_cons, List.nodup_cons] at hnd
    rcases List.mem_cons.mp hmem with heq | hmem2
    · cases heq
      simp only [applyReadings]
      rw [applyReadings_lookup_other ceiling tolBound site sid t rest
        (upsertActual acts ⟨sid, t, kw⟩) hnd.1]
      exact lookupActual_upsert_self acts ⟨sid, t, kw⟩
    · simp only [applyReadings]
      exact ih (upsertActual acts ⟨sid, t0, k0⟩) hnd.2 hmem2

/-- Every processed reading is reported with a status of its timestamp
whose suspect flag records whether it exceeds the tolerance bound. -/
theorem applyReadings_status_mem (ceiling : Site → Nat → ℚ)
    (tolBound : ℚ → ℚ) (site : Site) (sid t : Nat) (kw : ℚ) :
    ∀ (l : List (Nat × ℚ)) (acts : List PVActualValue),
      (t, kw) ∈ l →
      ∃ u ∈ (applyReadings ceiling tolBound site sid acts l).2,
        u.timestampUtc = t
        ∧ u.suspect = decide (tolBound (ceiling site t) < kw) := by
  intro l
  induction l with
  | nil => intro acts h; cases h
  | cons p rest ih =>
    intro acts hmem
    obtain ⟨t0, k0⟩ := p
    rcases List.mem_cons.mp hmem with heq | hmem2
    · cases heq
      simp only [applyReadings]
      exact ⟨_, List.mem_cons_self _ _, rfl, rfl⟩
    · obtain ⟨u, hu, h1, h2⟩ := ih (upsertActual acts ⟨sid, t0, k0⟩) hmem2
      simp only [applyReadings]
      exact ⟨u, List.mem_cons_of_mem _ hu, h1, h2⟩

/-- C8: A reading of a batch that passed validation whose measured value
exceeds the capacity ceiling of the site by more than the tolerance margin
is still persisted (stored as the single row under its key, not dropped)
and is marked suspect in the per-timestamp response, rather than failing
the batch. -/
theorem submitActual_suspect (ceiling : Site → Nat → ℚ) (tolBound : ℚ → ℚ)
    (store : Store) (caller sid : Nat) (site : Site) (t : Nat) (kw : ℚ)
    (readings : List RawReading)
    (hsite : findOwnedSite store caller sid = some site)
    (hvalid : batchInvalid readings = false)
    (hmem : (⟨some t, kw⟩ : RawReading) ∈ readings)
    (hbig : tolBound (ceiling site t) < kw) :
    ∃ st sts,
      submitActual ceiling tolBound store caller sid readings = .ok (st, sts)
      ∧ lookupActual st.actuals sid t = [⟨sid, t, kw⟩]
      ∧ ∃ u ∈ sts, u.timestampUtc = t ∧ u.suspect = true := by
  have hne : ¬ batchInvalid readings = true := by
    rw [hvalid]
    simp
  have hts : (readings.map RawReading.timestampUtc).Nodup := by
    by_contra hcon
    exact hne ((batchInvalid_iff readings).mpr (Or.inr hcon))
  have hpmem : (t, kw) ∈ parseReadings readings :=
    mem_parseReadings readings t kw hmem
  have hpnd := parse_fst_nodup readings hts
  have h1 : submitActual ceiling tolBound store caller sid readings
      = .ok (withActuals store
               (applyReadings ceiling tolBound site sid store.actuals
                 (parseReadings readings)).1,
             (applyReadings ceiling tolBound site sid store.actuals
               (parseReadings readings)).2) := by
    simp only [submitActual, hsite]
    rw [if_neg hne]
    rfl
  refine ⟨_, _, h1, ?_, ?_⟩
  · show lookupActual
        (applyReadings ceiling tolBound site sid store.actuals
          (parseReadings readings)).1 sid t = [⟨sid, t, kw⟩]
    exact applyReadings_lookup_mem ceiling tolBound site sid t kw
      (parseReadings readings) store.actuals hpnd hpmem
  · obtain ⟨u, hu, h2, h3⟩ := applyReadings_status_mem ceiling tolBound site
      sid t kw (parseReadings readings) store.actuals hpmem
    refine ⟨u, hu, h2, ?_⟩
    rw [h3]
    exact decide_eq_true hbig

/-- Closed-form check of the suspect theorem: 50 kW submitted for site 10
of the sample store, whose ceiling is the constant 4 kW, is persisted and
flagged suspect. -/
theorem submitActual_suspect_witness :
    (findOwnedSite sampleStore 7 10 = some sampleSite
      ∧ batchInvalid [⟨some 5, 50⟩] = false
      ∧ (⟨some 5, 50⟩ : RawReading) ∈ [(⟨some 5, 50⟩ : RawReading)]
      ∧ (fun c => c) ((fun (_ : Site) (_ : Nat) => (4 : ℚ)) sampleSite 5) < 50)
    ∧ ∃ st sts,
        submitActual (fun _ _ => 4) (fun c => c) sampleStore 7 10
          [⟨some 5, 50⟩] = .ok (st, sts)
        ∧ lookupActual st.actuals 10 5 = [⟨10, 5, 50⟩]
        ∧ ∃ u ∈ sts, u.timestampUtc = 5 ∧ u.suspect = true :=
  ⟨⟨rfl, rfl, by decide, by decide⟩,
   submitActual_suspect (fun _ _ => 4) (fun c => c) sampleStore 7 10
     sampleSite 5 50 [⟨some 5, 50⟩] rfl rfl (by decide) (by decide)⟩
